import Mathlib

/-!
Verification of the splank search client (`src/splank/client.py`,
`src/splank/cli.py`) against its specification.

The Python code is shallowly embedded:

* Pure string manipulation (query normalization, `str.strip`, `str.lower`,
  `str.startswith`, substring tests) is translated to executable functions on
  `String` / `List Char`.  Python's default `str.strip` removes the six ASCII
  whitespace characters modelled in `isPyWhitespace` (the queries at issue are
  ASCII); `str.lower` is modelled by `Char.toLower` per character.
* The HTTP layer is modelled by the possible outcomes of one request: either a
  decoded JSON success value or a non-2xx failure carrying status code and
  body (`urllib.request.urlopen` raises `urllib.error.HTTPError` for non-2xx
  responses).  Python exceptions become `Except` / explicit error values.
* The two polling loops (`SplunkClient.search` batch wait and
  `SplunkClient._stream_results`) are unbounded `while True` loops performing
  one status GET (and, for streaming, one preview GET) per iteration.  They
  are embedded as recursion over the finite trace of service responses the
  loop consumes, one trace element per iteration; exhausting the trace while
  the loop still wants to continue is reported as a `pending` outcome.
* The remote service itself is not part of the repository.  Following the
  spec (§4.5 and the glossary), its preview endpoint holds a cumulative
  snapshot of all rows produced so far, and a request with `offset` and
  `count` parameters returns `(snapshot.drop offset).take count`.
* Result rows are Python dicts; they are embedded as association lists with
  first-match lookup and Python dict-merge semantics (`dictSet`/`dictMerge`
  model `{"_profile": p, **row}`).  Field values are modelled as strings
  (the claims only inspect keys and string-valued fields).
-/

namespace Splank

/-! ### Python string primitives -/

/-- Whitespace characters removed by Python's default `str.strip`. -/
def isPyWhitespace (c : Char) : Bool :=
  c = ' ' || c = '\t' || c = '\n' || c = '\r' || c = '\x0b' || c = '\x0c'

/-- Python `str.strip()`: drop leading and trailing whitespace. -/
def pyStrip (s : String) : String :=
  ⟨((s.data.dropWhile isPyWhitespace).reverse.dropWhile isPyWhitespace).reverse⟩

/-- Python `str.lower()` (ASCII case folding suffices for the claims). -/
def pyLower (s : String) : String :=
  ⟨s.data.map Char.toLower⟩

/-- Python `s.startswith(pre)`. -/
def pyStartsWith (s pre : String) : Bool :=
  pre.data.isPrefixOf s.data

/-- Python slicing `s[:n]`. -/
def pyTake (s : String) (n : Nat) : String :=
  ⟨s.data.take n⟩

/-- Python substring membership `needle in hay`, on character lists. -/
def containsSub : List Char → List Char → Bool
  | [], needle => needle.isEmpty
  | c :: rest, needle => needle.isPrefixOf (c :: rest) || containsSub rest needle

/-! ### Query normalization — `SplunkClient.search`, client.py lines 96–104 -/

/-- The search text submitted to the service.  Translates

    if query.strip().startswith("|"):
        spl = query
    else:
        spl = f"search {query}"
    if "| head" not in spl.lower():
        spl = f"{spl} | head {max_results}"
-/
def buildSpl (query : String) (max_results : Nat) : String :=
  let spl := if pyStartsWith (pyStrip query) "|" then query else "search " ++ query
  if containsSub (pyLower spl).data "| head".data then spl
  else spl ++ " | head " ++ Nat.repr max_results

/-! ### Errors -/

/-- Failures surfaced by the client.  `runtimeError` is a Python
`RuntimeError` raised by splank's own code; `httpError` is a raw
`urllib.error.HTTPError` escaping from the lower-level HTTP machinery. -/
inductive SplankError where
  | runtimeError (msg : String)
  | httpError (code : Nat) (body : String)
deriving DecidableEq, Repr

/-! ### Transport — `SplunkClient._request` (lines 64–69) and
`SplunkClient.delete_job` (lines 183–193) -/

/-- Outcome of one `urllib.request.urlopen` call: a decoded body, or the
`HTTPError` that urlopen raises on a non-2xx response. -/
inductive HttpResp (α : Type) where
  | success (body : α)
  | httpFailure (code : Nat) (body : String)
deriving DecidableEq, Repr

/-- Error handling of `SplunkClient._request` (used for every GET and POST,
and for any method passed to it): a non-2xx response is converted to
`RuntimeError(f"HTTP {e.code}: {error_body}")`. -/
def requestOutcome {α : Type} (method : String) (resp : HttpResp α) :
    Except SplankError α :=
  match method, resp with
  | _, .success b => .ok b
  | _, .httpFailure code body =>
      .error (.runtimeError ("HTTP " ++ Nat.repr code ++ ": " ++ body))

/-- Classifier for the claim's distinction: `true` for the typed transport
failure (the `RuntimeError` splank's `_request` raises for a non-2xx
response), `false` for an untyped lower-level `HTTPError`. -/
def isTypedTransport : SplankError → Bool
  | .runtimeError _ => true
  | .httpError _ _ => false

/-- Error handling of `SplunkClient.delete_job`: it calls
`urllib.request.urlopen` directly, with no try/except, so a non-2xx response
surfaces as the raw `urllib.error.HTTPError`. -/
def deleteJobOutcome (resp : HttpResp Unit) : Except SplankError Unit :=
  match resp with
  | .success _ => .ok ()
  | .httpFailure code body => .error (.httpError code body)

/-! ### Batch completion wait — `SplunkClient.search`, lines 119–130 -/

/-- Result of the batch-mode completion wait, relative to a finite trace of
observed dispatch states (one per poll). -/
inductive WaitOutcome where
  | done
  | failed (err : SplankError)
  | pending
deriving DecidableEq, Repr

/-- The `while True` status-polling loop of batch mode:

    state = status["entry"][0]["content"]["dispatchState"]
    if state == "DONE": break
    if state == "FAILED": raise RuntimeError("Search job failed")
    time.sleep(0.5)

`states` is the sequence of dispatch states the service reports, one per
poll; `pending` means the loop consumed the whole trace and is still
polling. -/
def awaitCompletion : List String → WaitOutcome
  | [] => .pending
  | s :: rest =>
      if s = "DONE" then .done
      else if s = "FAILED" then .failed (.runtimeError "Search job failed")
      else awaitCompletion rest

/-- Decoded body of the final `GET .../results` response; the `results` key
may be absent. -/
structure ResultsResp (α : Type) where
  results : Option (List α)
deriving DecidableEq, Repr

/-- Batch-mode result extraction, line 138: `results.get("results", [])`. -/
def fetchResults {α : Type} (resp : ResultsResp α) : List α :=
  resp.results.getD []

/-- Query parameters of the batch results GET, line 136:
`{"output_mode": "json", "count": max_results}`. -/
def resultsParams (max_results : Nat) : List (String × String) :=
  [("output_mode", "json"), ("count", Nat.repr max_results)]

/-- Overall outcome of the non-streaming branch of `SplunkClient.search`. -/
inductive BatchOutcome (α : Type) where
  | ok (rows : List α)
  | failed (err : SplankError)
  | pending
deriving DecidableEq, Repr

/-- The non-streaming branch of `SplunkClient.search` (lines 117–138): wait
for completion, then fetch the results list once. -/
def searchBatch {α : Type} (states : List String) (resp : ResultsResp α) :
    BatchOutcome α :=
  match awaitCompletion states with
  | .done => .ok (fetchResults resp)
  | .failed e => .failed e
  | .pending => .pending

/-! ### Preview streaming — `SplunkClient._stream_results`, lines 140–172 -/

/-- One iteration of the streaming loop observes the job's dispatch state and
the service's cumulative preview snapshot at that moment. -/
structure Poll (α : Type) where
  state : String
  snapshot : List α
deriving DecidableEq, Repr

/-- The `for result in new_results` body: yield each row, increment
`seen_count`, and `return` as soon as `seen_count >= max_results`.
Returns (rows yielded, new `seen_count`, whether the cap `return` fired). -/
def yieldBatch (max_results : Nat) : Nat → List α → List α × Nat × Bool
  | seen, [] => ([], seen, false)
  | seen, r :: rs =>
      if seen + 1 ≥ max_results then ([r], seen + 1, true)
      else
        let tail := yieldBatch max_results (seen + 1) rs
        (r :: tail.1, tail.2.1, tail.2.2)

/-- Outcome of the streaming generator on a finite service trace, together
with every row it yielded (in order).  `pending` means the trace was
exhausted while the loop was still polling. -/
inductive StreamOutcome (α : Type) where
  | finished (rows : List α)
  | failed (rows : List α) (err : SplankError)
  | pending (rows : List α)
deriving DecidableEq, Repr

/-- Prepend earlier-yielded rows to a later outcome. -/
def prependRows (ys : List α) : StreamOutcome α → StreamOutcome α
  | .finished rs => .finished (ys ++ rs)
  | .failed rs e => .failed (ys ++ rs) e
  | .pending rs => .pending (ys ++ rs)

/-- The `while True` loop of `_stream_results`, one trace element per
iteration.  Each iteration does one status GET (giving `poll.state`) and one
preview GET with parameters `count = max_results`, `offset = seen_count`;
per the spec the service holds the cumulative snapshot `poll.snapshot` and a
request returns `(snapshot.drop offset).take count`.  The second component
counts loop iterations actually executed (each is exactly one status request
plus one preview request). -/
def streamGo (max_results : Nat) (seen : Nat) :
    List (Poll α) → StreamOutcome α × Nat
  | [] => (.pending [], 0)
  | poll :: rest =>
      let batch := (poll.snapshot.drop seen).take max_results
      let yb := yieldBatch max_results seen batch
      if yb.2.2 then (.finished yb.1, 1)
      else if poll.state = "DONE" then (.finished yb.1, 1)
      else if poll.state = "FAILED" then
        (.failed yb.1 (.runtimeError "Search job failed"), 1)
      else
        let inner := streamGo max_results yb.2.1 rest
        (prependRows yb.1 inner.1, inner.2 + 1)

/-- The streaming entry point `_stream_results(sid, max_results)` run against
a service trace, starting from `seen_count = 0`. -/
def streamResults (max_results : Nat) (polls : List (Poll α)) :
    StreamOutcome α × Nat :=
  streamGo max_results 0 polls

/-- The value of `seen_count` after running the loop through a list of polls
(each iteration leaves `seen_count` at `max seen (snapshot.length)` when no
stop fires, see `streamGo`). -/
def seenAfter (seen : Nat) (front : List (Poll α)) : Nat :=
  front.foldl (fun s p => max s p.snapshot.length) seen

/-! ### CLI row handling — `src/splank/cli.py` -/

/-- A result row: a Python dict embedded as an association list. -/
abbrev Row : Type := List (String × String)

/-- cli.py line 17. -/
def INTERNAL_FIELDS : List String :=
  ["_bkt", "_cd", "_indextime", "_serial", "_sourcetype", "_subsecond"]

/-- cli.py lines 33–39: drop internal Splunk fields (`INTERNAL_FIELDS` and
keys starting with the `_si` array prefix). -/
def filter_internal_fields (row : Row) : Row :=
  row.filter fun kv => !(INTERNAL_FIELDS.contains kv.1) && !(pyStartsWith kv.1 "_si")

/-- cli.py lines 22–30: truncate every string field to `width` characters,
appending `"..."`; `width = 0` (falsy) disables truncation. -/
def truncate_fields (row : Row) (width : Nat) : Row :=
  if width = 0 then row
  else row.map fun kv =>
    (kv.1, if width < kv.2.length then pyTake kv.2 width ++ "..." else kv.2)

/-- Python dict assignment `d[k] = v` on an association list: overwrite in
place if the key exists, else append. -/
def dictSet (d : Row) (k v : String) : Row :=
  if d.any (fun kv => kv.1 = k) then
    d.map fun kv => if kv.1 = k then (k, v) else kv
  else d ++ [(k, v)]

/-- Python `{**d, **upd}` right operand: fold every binding of `upd` into
`d`. -/
def dictMerge (d : Row) : Row → Row
  | [] => d
  | (k, v) :: rest => dictMerge (dictSet d k v) rest

/-- The `transform` closure of `cmd_search` (cli.py lines 184–191):

    if profile is not None and len(profiles) > 1:
        row = {"_profile": profile, **row}
    if not args.internal:
        row = filter_internal_fields(row)
    if args.width:
        row = truncate_fields(row, args.width)
-/
def transform (nProfiles : Nat) (internal : Bool) (width : Nat)
    (profile : Option String) (row : Row) : Row :=
  let row1 :=
    match profile with
    | some p => if 1 < nProfiles then dictMerge [("_profile", p)] row else row
    | none => row
  let row2 := if internal then row1 else filter_internal_fields row1
  if width = 0 then row2 else truncate_fields row2 width

/-- The `as_completed` collection loop of the multi-profile branch (cli.py
lines 236–239).  `completed` lists, in completion order, each profile paired
with the outcome of its whole batch search; `future.result()` re-raises a
worker's exception, aborting the loop (and discarding rows merged so far). -/
def collectCompleted (tf : String → Row → Row) :
    List (String × Except SplankError (List Row)) → Except SplankError (List Row)
  | [] => .ok []
  | (_, .error e) :: _ => .error e
  | (p, .ok rows) :: rest =>
      match collectCompleted tf rest with
      | .error e => .error e
      | .ok acc => .ok (rows.map (tf p) ++ acc)

/-- The multi-profile branch of `cmd_search` (cli.py lines 222–239): run one
batch search per profile, merge transformed rows in completion order.
`nProfiles = len(profiles)` is what the `transform` closure captures. -/
def cmdSearchMulti (internal : Bool) (width : Nat) (nProfiles : Nat)
    (completed : List (String × Except SplankError (List Row))) :
    Except SplankError (List Row) :=
  collectCompleted (fun p row => transform nProfiles internal width (some p) row)
    completed

/-- Whether the multi-profile search as a whole produced rows (as opposed to
aborting with a failure). -/
def isOkResult : Except SplankError (List Row) → Bool
  | .ok _ => true
  | .error _ => false

/-- The merged row list the multi-profile branch produces when every profile
succeeds. -/
def mergeAll (internal : Bool) (width : Nat) (nProfiles : Nat)
    (completed : List (String × List Row)) : List Row :=
  (completed.map fun pr =>
    pr.2.map (transform nProfiles internal width (some pr.1))).flatten

/-! ### Helper lemmas: substring search -/

theorem isPrefixOf_append_self (l t : List Char) : l.isPrefixOf (l ++ t) = true := by
  induction l with
  | nil => simp [List.isPrefixOf]
  | cons c l ih => simp [List.isPrefixOf, ih]

theorem containsSub_of_isPrefixOf {hay n : List Char} (h : n.isPrefixOf hay = true) :
    containsSub hay n = true := by
  cases hay with
  | nil =>
      cases n with
      | nil => rfl
      | cons c t => simp [List.isPrefixOf] at h
  | cons c rest => simp [containsSub, h]

theorem containsSub_append_right {hay n : List Char} (pre : List Char)
    (h : containsSub hay n = true) : containsSub (pre ++ hay) n = true := by
  induction pre with
  | nil => exact h
  | cons c p ih => simp [containsSub, ih]

theorem containsSub_head_mid (a b : List Char) :
    containsSub (a ++ (' ' :: ('|' :: ' ' :: 'h' :: 'e' :: 'a' :: 'd' :: b)))
      "| head".data = true := by
  have hd : "| head".data = ['|', ' ', 'h', 'e', 'a', 'd'] := rfl
  have e : a ++ (' ' :: ('|' :: ' ' :: 'h' :: 'e' :: 'a' :: 'd' :: b))
      = (a ++ [' ']) ++ (['|', ' ', 'h', 'e', 'a', 'd'] ++ b) := by simp
  rw [hd, e]
  exact containsSub_append_right _ (containsSub_of_isPrefixOf (isPrefixOf_append_self _ _))

/-- After normalization the query always contains the (lower-cased) `| head`
pattern: either it already did, or the appended ` | head N` stage supplies
it. -/
theorem head_in_buildSpl (q : String) (m : Nat) :
    containsSub (pyLower (buildSpl q m)).data "| head".data = true := by
  unfold buildSpl
  set spl := if pyStartsWith (pyStrip q) "|" then q else "search " ++ q with hspl
  by_cases hc : containsSub (pyLower spl).data "| head".data
  · simp [hc]
  · simp only [hc, if_false, Bool.false_eq_true]
    have hseg : List.map Char.toLower " | head ".data
        = [' ', '|', ' ', 'h', 'e', 'a', 'd', ' '] := by decide
    have e : (pyLower (spl ++ " | head " ++ Nat.repr m)).data
        = (spl.data.map Char.toLower)
          ++ (' ' :: ('|' :: ' ' :: 'h' :: 'e' :: 'a' :: 'd' ::
              (' ' :: (Nat.repr m).data.map Char.toLower))) := by
      show ((spl ++ " | head " ++ Nat.repr m).data.map Char.toLower) = _
      rw [String.data_append, String.data_append, List.map_append, List.map_append, hseg]
      simp
    rw [e]
    exact containsSub_head_mid _ _

/-- If the normalized query already contains the `| head` pattern, nothing is
appended. -/
theorem buildSpl_of_contains (q : String) (m : Nat)
    (h : containsSub
        (pyLower (if pyStartsWith (pyStrip q) "|" then q else "search " ++ q)).data
        "| head".data = true) :
    buildSpl q m = if pyStartsWith (pyStrip q) "|" then q else "search " ++ q := by
  unfold buildSpl
  simp [h]

/-! ### Claim C5 — query normalization -/

/-- C5: for a query whose trimmed form does not start with `|`, the submitted
text is the literal `"search "` concatenated with the query (possibly with an
appended head stage); for a query whose trimmed form starts with `|`, the
query is submitted unchanged (up to the same possible head stage). -/
theorem splank_C5_query_normalization (q : String) (m : Nat) :
    (pyStartsWith (pyStrip q) "|" = false →
      buildSpl q m = "search " ++ q ∨
      buildSpl q m = "search " ++ q ++ " | head " ++ Nat.repr m)
  ∧ (pyStartsWith (pyStrip q) "|" = true →
      buildSpl q m = q ∨ buildSpl q m = q ++ " | head " ++ Nat.repr m) := by
  constructor
  · intro h
    by_cases hc : containsSub (pyLower ("search " ++ q)).data "| head".data
    · left
      unfold buildSpl
      simp [h, hc]
    · right
      unfold buildSpl
      simp [h, hc]
  · intro h
    by_cases hc : containsSub (pyLower q).data "| head".data
    · left
      unfold buildSpl
      simp [h, hc]
    · right
      unfold buildSpl
      simp [h, hc]

/-- C5 witness: a plain query is prefixed with `search `, a generator query
is left unchanged. -/
theorem splank_C5_witness :
    pyStartsWith (pyStrip "  status=500") "|" = false
  ∧ (buildSpl "  status=500" 7 = "search " ++ "  status=500" ∨
     buildSpl "  status=500" 7 = "search " ++ "  status=500" ++ " | head " ++ Nat.repr 7) :=
  ⟨by decide, (splank_C5_query_normalization "  status=500" 7).1 (by decide)⟩

/-! ### Claim C6 — row-cap append and (non-)idempotence -/

/-- C6 counterexample: re-normalizing an already-normalized query is not the
identity — the `search ` prefix rule fires again, even though no second
`head` stage is appended. -/
theorem splank_C6_counterexample :
    buildSpl "foo" 5 = "search foo | head 5"
  ∧ buildSpl (buildSpl "foo" 5) 5 = "search search foo | head 5"
  ∧ (("search search foo | head 5" : String) == "search foo | head 5") = false :=
  ⟨by decide, by decide, by decide⟩

/-- C6 (amended): `| head <maxResults>` is appended iff the normalized query
does not already contain the case-insensitive `| head` pattern, and a query
already containing it never receives a second head stage — re-applying the
normalization appends no further head stage (though the `search ` prefix rule
may prepend another `search ` keyword, so full normalization is not the
identity). -/
theorem splank_C6_row_cap (q : String) (m : Nat) :
    (containsSub
        (pyLower (if pyStartsWith (pyStrip q) "|" then q else "search " ++ q)).data
        "| head".data = true →
      buildSpl q m = (if pyStartsWith (pyStrip q) "|" then q else "search " ++ q))
  ∧ (containsSub
        (pyLower (if pyStartsWith (pyStrip q) "|" then q else "search " ++ q)).data
        "| head".data = false →
      buildSpl q m
        = (if pyStartsWith (pyStrip q) "|" then q else "search " ++ q)
            ++ " | head " ++ Nat.repr m)
  ∧ (buildSpl (buildSpl q m) m = buildSpl q m ∨
     buildSpl (buildSpl q m) m = "search " ++ buildSpl q m) := by
  refine ⟨fun h => buildSpl_of_contains q m h, fun h => ?_, ?_⟩
  · unfold buildSpl
    simp [h]
  · have hin := head_in_buildSpl q m
    by_cases hp : pyStartsWith (pyStrip (buildSpl q m)) "|"
    · left
      rw [buildSpl_of_contains (buildSpl q m) m (by rw [if_pos hp]; exact hin), if_pos hp]
    · right
      refine Eq.trans (buildSpl_of_contains (buildSpl q m) m ?_) (if_neg hp)
      rw [if_neg hp]
      have e : (pyLower ("search " ++ buildSpl q m)).data
          = ("search ".data.map Char.toLower) ++ (pyLower (buildSpl q m)).data := by
        show (("search " ++ buildSpl q m).data.map Char.toLower) = _
        rw [String.data_append, List.map_append]
        rfl
      rw [e]
      exact containsSub_append_right _ hin

/-- C6 witness: a query already carrying an upper-cased `HEAD` stage gets no
second head stage appended. -/
theorem splank_C6_witness :
    containsSub
        (pyLower (if pyStartsWith (pyStrip "err | HEAD 3") "|" then "err | HEAD 3"
          else "search " ++ "err | HEAD 3")).data
        "| head".data = true
  ∧ buildSpl "err | HEAD 3" 9
      = (if pyStartsWith (pyStrip "err | HEAD 3") "|" then "err | HEAD 3"
          else "search " ++ "err | HEAD 3") :=
  ⟨by decide, (splank_C6_row_cap "err | HEAD 3" 9).1 (by decide)⟩

/-! ### Claim C9 — typed transport failures -/

/-- C9 counterexample: a non-2xx response to `delete_job`'s DELETE surfaces
as the raw lower-level `HTTPError`, not as the typed transport failure the
claim requires for every method. -/
theorem splank_C9_counterexample :
    deleteJobOutcome (.httpFailure 404 "Not Found")
      = .error (.httpError 404 "Not Found")
  ∧ isTypedTransport (.httpError 404 "Not Found") = false :=
  ⟨rfl, rfl⟩

/-- C9 (amended): every request issued through `_request` — GET, POST, or any
other method string — converts a non-2xx response into the typed
`RuntimeError` carrying the status code and body; `delete_job`, which issues
its DELETE directly via `urlopen`, instead surfaces the lower-level
`HTTPError` unconverted. -/
theorem splank_C9_typed_transport {α : Type} (method : String) (code : Nat) (body : String) :
    requestOutcome (α := α) method (.httpFailure code body)
      = .error (.runtimeError ("HTTP " ++ Nat.repr code ++ ": " ++ body))
  ∧ isTypedTransport (.runtimeError ("HTTP " ++ Nat.repr code ++ ": " ++ body)) = true
  ∧ deleteJobOutcome (.httpFailure code body) = .error (.httpError code body)
  ∧ isTypedTransport (.httpError code body) = false :=
  ⟨rfl, rfl, rfl, rfl⟩

/-! ### Claim C4 — multi-profile partial failure -/

/-- C4 counterexample: with profile `a` succeeding and profile `b` failing,
the multi-profile search fails as a whole (the first `future.result()` that
raises aborts the merge) instead of aggregating `a`'s results. -/
theorem splank_C4_counterexample :
    cmdSearchMulti false 500 2
      [("a", .ok [[("x", "1")]]), ("b", .error (.runtimeError "boom"))]
      = .error (.runtimeError "boom")
  ∧ isOkResult (cmdSearchMulti false 500 2
      [("a", .ok [[("x", "1")]]), ("b", .error (.runtimeError "boom"))]) = false :=
  ⟨rfl, rfl⟩

/-- C4 (amended): the multi-profile search fails as a whole as soon as any
profile's search fails — the first failure in completion order propagates and
the successful profiles' results are discarded.  A partial failure is thereby
distinguishable from full success (the call errors instead of returning
rows), but successes are not aggregated and the call does not wait for every
profile to fail. -/
theorem splank_C4_first_failure_aborts (internal : Bool) (width nProfiles : Nat)
    (pre post : List (String × Except SplankError (List Row)))
    (p : String) (e : SplankError)
    (h : ∀ q ∈ pre, ∃ rows, q.2 = .ok rows) :
    cmdSearchMulti internal width nProfiles (pre ++ (p, .error e) :: post)
      = .error e := by
  induction pre with
  | nil => rfl
  | cons q0 pre ih =>
      obtain ⟨rows, hr⟩ := h q0 (List.mem_cons_self _ _)
      obtain ⟨name, out⟩ := q0
      simp only at hr
      subst hr
      have ih2 := ih fun x hx => h x (List.mem_cons_of_mem _ hx)
      simp only [cmdSearchMulti, collectCompleted, List.cons_append] at ih2 ⊢
      simp only [List.append_eq]
      rw [ih2]

/-- C4 witness for the amended theorem: one success, then a failure, then
another profile — the whole call yields the first failure. -/
theorem splank_C4_witness :
    cmdSearchMulti false 500 3
      ([("a", Except.ok [[("x", "1")]])]
        ++ ("b", Except.error (SplankError.runtimeError "down")) :: [("c", Except.ok [])])
      = Except.error (SplankError.runtimeError "down") :=
  splank_C4_first_failure_aborts false 500 3 _ _ "b" _ (by
    intro q hq
    rw [List.mem_singleton] at hq
    exact ⟨[[("x", "1")]], by rw [hq]⟩)

/-! ### Polling-loop helper lemmas -/

theorem awaitCompletion_done (front rest : List String)
    (h : ∀ s ∈ front, s ≠ "DONE" ∧ s ≠ "FAILED") :
    awaitCompletion (front ++ "DONE" :: rest) = .done := by
  induction front with
  | nil => simp [awaitCompletion]
  | cons s f ih =>
      have hs := h s (List.mem_cons_self _ _)
      rw [List.cons_append]
      show (if s = "DONE" then WaitOutcome.done
        else if s = "FAILED" then .failed (.runtimeError "Search job failed")
        else awaitCompletion (f ++ "DONE" :: rest)) = .done
      rw [if_neg hs.1, if_neg hs.2]
      exact ih fun x hx => h x (List.mem_cons_of_mem _ hx)

theorem awaitCompletion_failed (front rest : List String)
    (h : ∀ s ∈ front, s ≠ "DONE" ∧ s ≠ "FAILED") :
    awaitCompletion (front ++ "FAILED" :: rest)
      = .failed (.runtimeError "Search job failed") := by
  induction front with
  | nil => simp [awaitCompletion]
  | cons s f ih =>
      have hs := h s (List.mem_cons_self _ _)
      rw [List.cons_append]
      show (if s = "DONE" then WaitOutcome.done
        else if s = "FAILED" then .failed (.runtimeError "Search job failed")
        else awaitCompletion (f ++ "FAILED" :: rest))
        = .failed (.runtimeError "Search job failed")
      rw [if_neg hs.1, if_neg hs.2]
      exact ih fun x hx => h x (List.mem_cons_of_mem _ hx)

/-! ### Streaming-loop helper lemmas -/

theorem yieldBatch_lt {α : Type} (m seen : Nat) (l : List α)
    (h : seen + l.length < m) :
    yieldBatch m seen l = (l, seen + l.length, false) := by
  induction l generalizing seen with
  | nil => simp [yieldBatch]
  | cons r rs ih =>
      have h1 : ¬(seen + 1 ≥ m) := by
        simp only [List.length_cons] at h
        omega
      rw [yieldBatch, if_neg h1, ih (seen + 1) (by simp only [List.length_cons] at h; omega)]
      simp only [List.length_cons, Prod.mk.injEq, true_and, and_true]
      omega

theorem yieldBatch_cap {α : Type} (m seen : Nat) (l : List α)
    (h1 : seen < m) (h2 : m ≤ seen + l.length) :
    yieldBatch m seen l = (l.take (m - seen), m, true) := by
  induction l generalizing seen with
  | nil => simp only [List.length_nil] at h2; omega
  | cons r rs ih =>
      by_cases hc : seen + 1 ≥ m
      · have hm : m = seen + 1 := by omega
        subst hm
        have ht : seen + 1 - seen = 1 := by omega
        rw [yieldBatch, if_pos hc, ht]
        rfl
      · rw [yieldBatch, if_neg hc,
          ih (seen + 1) (by omega) (by simp only [List.length_cons] at h2; omega)]
        have ht : m - seen = (m - (seen + 1)) + 1 := by omega
        rw [ht, List.take_succ_cons]

theorem prependRows_nil {α : Type} (out : StreamOutcome α) :
    prependRows [] out = out := by
  cases out <;> simp [prependRows]

theorem prependRows_prependRows {α : Type} (a b : List α) (out : StreamOutcome α) :
    prependRows a (prependRows b out) = prependRows (a ++ b) out := by
  cases out <;> simp [prependRows]

theorem prefix_drop_append {α : Type} {l₁ l₂ : List α} (seen : Nat)
    (h : l₁ <+: l₂) (hs : seen ≤ l₁.length) :
    l₁.drop seen ++ l₂.drop l₁.length = l₂.drop seen := by
  obtain ⟨t, rfl⟩ := h
  rw [List.drop_left, List.drop_append_eq_append_drop]
  have h0 : seen - l₁.length = 0 := by omega
  rw [h0, List.drop_zero]

/-- Value of `seen_count` after the loop body: it grows to the snapshot
length when new rows were available, else stays. -/
theorem seenAfter_cons {α : Type} (seen : Nat) (p : Poll α) (f : List (Poll α)) :
    seenAfter seen (p :: f) = seenAfter (max seen p.snapshot.length) f := rfl

theorem le_seenAfter {α : Type} (seen : Nat) (f : List (Poll α)) :
    seen ≤ seenAfter seen f := by
  induction f generalizing seen with
  | nil => exact Nat.le_refl _
  | cons p f ih =>
      exact Nat.le_trans (Nat.le_max_left _ _) (ih (max seen p.snapshot.length))

theorem seenAfter_le {α : Type} (seen n : Nat) (f : List (Poll α))
    (hs : seen ≤ n) (h : ∀ p ∈ f, p.snapshot.length ≤ n) :
    seenAfter seen f ≤ n := by
  induction f generalizing seen with
  | nil => exact hs
  | cons p f ih =>
      rw [seenAfter_cons]
      exact ih _ (Nat.max_le.mpr ⟨hs, h p (List.mem_cons_self _ _)⟩)
        (fun x hx => h x (List.mem_cons_of_mem _ hx))

theorem seenAfter_lt {α : Type} (seen m : Nat) (f : List (Poll α))
    (hs : seen < m) (h : ∀ p ∈ f, p.snapshot.length < m) :
    seenAfter seen f < m := by
  induction f generalizing seen with
  | nil => exact hs
  | cons p f ih =>
      rw [seenAfter_cons]
      exact ih _ (Nat.max_lt.mpr ⟨hs, h p (List.mem_cons_self _ _)⟩)
        (fun x hx => h x (List.mem_cons_of_mem _ hx))

/-- One loop iteration at a `DONE` poll whose snapshot fits under the cap:
the batch is drained and the generator finishes (whether or not the cap
`return` fires exactly at the end of the batch). -/
theorem streamGo_last_done {α : Type} (m seen : Nat) (p : Poll α)
    (rest : List (Poll α)) (hdone : p.state = "DONE")
    (hs : seen ≤ p.snapshot.length) (hm : p.snapshot.length ≤ m) :
    streamGo m seen (p :: rest) = (.finished (p.snapshot.drop seen), 1) := by
  simp only [streamGo]
  have hbatch : (p.snapshot.drop seen).take m = p.snapshot.drop seen :=
    List.take_of_length_le (by rw [List.length_drop]; omega)
  rw [hbatch]
  by_cases hempty : p.snapshot.length ≤ seen
  · have hnil : p.snapshot.drop seen = [] := List.drop_eq_nil_of_le hempty
    rw [hnil]
    simp [yieldBatch, hdone]
  · push_neg at hempty
    by_cases hlt : p.snapshot.length < m
    · rw [yieldBatch_lt m seen _ (by rw [List.length_drop]; omega)]
      simp [hdone]
    · have hem : p.snapshot.length = m := by omega
      rw [yieldBatch_cap m seen _ (by omega) (by rw [List.length_drop]; omega)]
      have htk : (p.snapshot.drop seen).take (m - seen) = p.snapshot.drop seen :=
        List.take_of_length_le (by rw [List.length_drop]; omega)
      simp [htk]

/-- One loop iteration at a poll whose snapshot already holds at least `m`
rows: the cap `return` fires inside the yield loop and the generator
finishes, regardless of the poll's dispatch state. -/
theorem streamGo_last_cap {α : Type} (m seen : Nat) (p : Poll α)
    (rest : List (Poll α)) (hm : m ≤ p.snapshot.length) (hs : seen < m) :
    streamGo m seen (p :: rest)
      = (.finished ((p.snapshot.take m).drop seen), 1) := by
  simp only [streamGo]
  rw [yieldBatch_cap m seen _ hs (by rw [List.length_take, List.length_drop]; omega)]
  simp only [if_true]
  have e : ((p.snapshot.drop seen).take m).take (m - seen)
      = (p.snapshot.take m).drop seen := by
    rw [List.take_take]
    have hmin : min (m - seen) m = m - seen := by omega
    rw [hmin, List.drop_take]
  rw [e]

/-- One loop iteration at a `FAILED` poll whose snapshot is still under the
cap: the batch is drained, then the loop raises
`RuntimeError("Search job failed")`. -/
theorem streamGo_last_failed {α : Type} (m seen : Nat) (p : Poll α)
    (rest : List (Poll α)) (hf : p.state = "FAILED")
    (hs : seen ≤ p.snapshot.length) (hlt : p.snapshot.length < m) :
    streamGo m seen (p :: rest)
      = (.failed (p.snapshot.drop seen) (.runtimeError "Search job failed"), 1) := by
  simp only [streamGo]
  have hbatch : (p.snapshot.drop seen).take m = p.snapshot.drop seen :=
    List.take_of_length_le (by rw [List.length_drop]; omega)
  rw [hbatch, yieldBatch_lt m seen _ (by rw [List.length_drop]; omega)]
  have hnd : p.state ≠ "DONE" := by rw [hf]; decide
  simp [hf, hnd]

/-- One loop iteration at a non-terminal poll whose snapshot holds nothing
new (`snapshot.length ≤ seen_count`): the empty batch yields nothing and the
loop keeps polling with `seen_count` unchanged. -/
theorem streamGo_step_skip {α : Type} (m seen : Nat) (p : Poll α)
    (rest : List (Poll α)) (hskip : p.snapshot.length ≤ seen)
    (hnd : p.state ≠ "DONE") (hnf : p.state ≠ "FAILED") :
    streamGo m seen (p :: rest)
      = ((streamGo m seen rest).1, (streamGo m seen rest).2 + 1) := by
  simp only [streamGo]
  rw [List.drop_eq_nil_of_le hskip]
  simp [yieldBatch, hnd, hnf, prependRows_nil]

/-- One loop iteration at a non-terminal poll with new rows, all still under
the cap: the unseen suffix is yielded and `seen_count` advances to the
snapshot length. -/
theorem streamGo_step_yield {α : Type} (m seen : Nat) (p : Poll α)
    (rest : List (Poll α)) (hps : seen < p.snapshot.length)
    (hlt : p.snapshot.length < m)
    (hnd : p.state ≠ "DONE") (hnf : p.state ≠ "FAILED") :
    streamGo m seen (p :: rest)
      = (prependRows (p.snapshot.drop seen)
          (streamGo m p.snapshot.length rest).1,
        (streamGo m p.snapshot.length rest).2 + 1) := by
  simp only [streamGo]
  have hbatch : (p.snapshot.drop seen).take m = p.snapshot.drop seen :=
    List.take_of_length_le (by rw [List.length_drop]; omega)
  have hseen : seen + (p.snapshot.drop seen).length = p.snapshot.length := by
    rw [List.length_drop]; omega
  rw [hbatch, yieldBatch_lt m seen _ (by rw [List.length_drop]; omega), hseen]
  simp [hnd, hnf]

/-- Running the streaming loop through a front of non-terminal polls whose
snapshots are prefixes of the (eventual) snapshot `lastp.snapshot` and all
strictly below the cap: the loop yields exactly the slice of rows between the
starting offset and the final `seen_count`, then continues at `lastp`. -/
theorem streamGo_front {α : Type} (m : Nat) (front : List (Poll α))
    (lastp : Poll α) (rest : List (Poll α)) (seen : Nat)
    (hstates : ∀ p ∈ front, p.state ≠ "DONE" ∧ p.state ≠ "FAILED")
    (hpref : ∀ p ∈ front, p.snapshot <+: lastp.snapshot)
    (hlt : ∀ p ∈ front, p.snapshot.length < m) :
    streamGo m seen (front ++ lastp :: rest)
      = (prependRows ((lastp.snapshot.take (seenAfter seen front)).drop seen)
          (streamGo m (seenAfter seen front) (lastp :: rest)).1,
        (streamGo m (seenAfter seen front) (lastp :: rest)).2 + front.length) := by
  induction front generalizing seen with
  | nil =>
      have hsa : seenAfter seen ([] : List (Poll α)) = seen := rfl
      rw [List.nil_append, hsa]
      have h0 : (lastp.snapshot.take seen).drop seen = [] :=
        List.drop_eq_nil_of_le (by rw [List.length_take]; omega)
      rw [h0, prependRows_nil]
      simp
  | cons p front ih =>
      have hsp := hstates p (List.mem_cons_self _ _)
      have hpp := hpref p (List.mem_cons_self _ _)
      have hlp := hlt p (List.mem_cons_self _ _)
      have hstates' : ∀ x ∈ front, x.state ≠ "DONE" ∧ x.state ≠ "FAILED" :=
        fun x hx => hstates x (List.mem_cons_of_mem _ hx)
      have hpref' : ∀ x ∈ front, x.snapshot <+: lastp.snapshot :=
        fun x hx => hpref x (List.mem_cons_of_mem _ hx)
      have hlt' : ∀ x ∈ front, x.snapshot.length < m :=
        fun x hx => hlt x (List.mem_cons_of_mem _ hx)
      rw [List.cons_append, seenAfter_cons]
      by_cases hps : p.snapshot.length ≤ seen
      · have hmax : max seen p.snapshot.length = seen := Nat.max_eq_left hps
        rw [hmax, streamGo_step_skip m seen p _ hps hsp.1 hsp.2,
          ih seen hstates' hpref' hlt']
        simp only [Prod.mk.injEq, List.length_cons, true_and]
        omega
      · push_neg at hps
        have hmax : max seen p.snapshot.length = p.snapshot.length :=
          Nat.max_eq_right (Nat.le_of_lt hps)
        rw [hmax, streamGo_step_yield m seen p _ hps hlp hsp.1 hsp.2,
          ih p.snapshot.length hstates' hpref' hlt']
        simp only []
        rw [prependRows_prependRows]
        have hTc : p.snapshot.length ≤ seenAfter p.snapshot.length front :=
          le_seenAfter _ _
        have hcpre : p.snapshot
            <+: lastp.snapshot.take (seenAfter p.snapshot.length front) := by
          have h1 : p.snapshot = lastp.snapshot.take p.snapshot.length :=
            List.prefix_iff_eq_take.mp hpp
        -- a prefix of the final snapshot is a prefix of any longer take of it
          conv_lhs => rw [h1]
          exact List.take_prefix_take_left _ hTc
        have e := prefix_drop_append seen hcpre (Nat.le_of_lt hps)
        rw [e]
        simp only [Prod.mk.injEq, List.length_cons, true_and]
        omega

/-- In a cumulative trace (each poll's snapshot a prefix of the next's),
every snapshot in the front is a prefix of the last snapshot. -/
theorem chain_prefix_to_last {α : Type} (front : List (Poll α)) (lastp : Poll α)
    (hchain : List.Chain' (fun a b : Poll α => a.snapshot <+: b.snapshot)
      (front ++ [lastp])) :
    ∀ p ∈ front, p.snapshot <+: lastp.snapshot := by
  induction front with
  | nil => intro p hp; exact absurd hp (List.not_mem_nil p)
  | cons a front ih =>
      intro p hp
      rw [List.cons_append] at hchain
      rcases List.mem_cons.mp hp with rfl | hp'
      · cases front with
        | nil =>
            rw [List.nil_append] at hchain
            exact (List.chain'_cons.mp hchain).1
        | cons b front' =>
            rw [List.cons_append] at hchain
            have h1 := (List.chain'_cons.mp hchain).1
            have h2 := (List.chain'_cons.mp hchain).2
            exact h1.trans
              (ih (by rw [List.cons_append]; exact h2) b (List.mem_cons_self _ _))
      · exact ih hchain.tail p hp'

/-- Running the loop to a `DONE` poll over a cumulative trace that fits
under the cap yields the unseen suffix of the final snapshot and finishes. -/
theorem streamGo_done_run {α : Type} (m : Nat) (front : List (Poll α))
    (final : Poll α) (seen : Nat)
    (hstates : ∀ p ∈ front, p.state ≠ "DONE" ∧ p.state ≠ "FAILED")
    (hpref : ∀ p ∈ front, p.snapshot <+: final.snapshot)
    (hdone : final.state = "DONE")
    (hlen : final.snapshot.length ≤ m)
    (hseen : seen ≤ final.snapshot.length) :
    (streamGo m seen (front ++ [final])).1
      = .finished (final.snapshot.drop seen) := by
  induction front generalizing seen with
  | nil =>
      rw [List.nil_append, streamGo_last_done m seen final [] hdone hseen hlen]
  | cons p front ih =>
      have hsp := hstates p (List.mem_cons_self _ _)
      have hpp := hpref p (List.mem_cons_self _ _)
      have hstates' : ∀ x ∈ front, x.state ≠ "DONE" ∧ x.state ≠ "FAILED" :=
        fun x hx => hstates x (List.mem_cons_of_mem _ hx)
      have hpref' : ∀ x ∈ front, x.snapshot <+: final.snapshot :=
        fun x hx => hpref x (List.mem_cons_of_mem _ hx)
      have hcL : p.snapshot.length ≤ final.snapshot.length := hpp.length_le
      rw [List.cons_append]
      by_cases hps : p.snapshot.length ≤ seen
      · rw [streamGo_step_skip m seen p _ hps hsp.1 hsp.2]
        exact ih seen hstates' hpref' hseen
      · push_neg at hps
        by_cases hlt : p.snapshot.length < m
        · rw [streamGo_step_yield m seen p _ hps hlt hsp.1 hsp.2]
          simp only []
          rw [ih p.snapshot.length hstates' hpref' hcL]
          show prependRows (p.snapshot.drop seen)
              (.finished (final.snapshot.drop p.snapshot.length)) = _
          rw [prependRows]
          rw [prefix_drop_append seen hpp (Nat.le_of_lt hps)]
        · -- the snapshot already holds exactly m rows: the cap fires here,
          -- and by the prefix chain this snapshot is the whole final snapshot
          have hcm : p.snapshot.length = m := by omega
          have hLm : final.snapshot.length = m := by omega
          have hceq : p.snapshot = final.snapshot :=
            hpp.eq_of_length (by omega)
          rw [streamGo_last_cap m seen p _ (by omega) (by omega)]
          simp only []
          rw [hceq]
          have ht : final.snapshot.take m = final.snapshot :=
            List.take_of_length_le (by omega)
          rw [ht]

/-! ### Claim C1 — streaming exactly-once delivery -/

/-- C1: streamed against a service whose preview endpoint serves a cumulative
snapshot on every poll, a job that stays non-terminal and then reaches
`DONE`, with every produced row fitting under the cap, yields exactly the
service-produced rows, in order, with no duplicates and no gaps, and
finishes normally. -/
theorem splank_C1_streaming_exactly_once {α : Type} (m : Nat)
    (front : List (Poll α)) (final : Poll α)
    (hstates : ∀ p ∈ front, p.state ≠ "DONE" ∧ p.state ≠ "FAILED")
    (hchain : List.Chain' (fun a b : Poll α => a.snapshot <+: b.snapshot)
      (front ++ [final]))
    (hdone : final.state = "DONE")
    (hlen : final.snapshot.length ≤ m) :
    (streamResults m (front ++ [final])).1
      = StreamOutcome.finished final.snapshot := by
  have hpref := chain_prefix_to_last front final hchain
  have h := streamGo_done_run m front final 0 hstates hpref hdone hlen
    (Nat.zero_le _)
  rw [List.drop_zero] at h
  exact h

/-- C1 witness: the spec's trace of cumulative snapshot sizes 0, 3, 3, 7
with the job `DONE` on the fourth poll yields exactly the 7 rows, in order. -/
theorem splank_C1_witness :
    (streamResults 100
        ([⟨"RUNNING", ([] : List Nat)⟩, ⟨"RUNNING", [1, 2, 3]⟩,
          ⟨"RUNNING", [1, 2, 3]⟩] ++ [⟨"DONE", [1, 2, 3, 4, 5, 6, 7]⟩])).1
      = StreamOutcome.finished [1, 2, 3, 4, 5, 6, 7] :=
  splank_C1_streaming_exactly_once 100
    [⟨"RUNNING", ([] : List Nat)⟩, ⟨"RUNNING", [1, 2, 3]⟩, ⟨"RUNNING", [1, 2, 3]⟩]
    ⟨"DONE", [1, 2, 3, 4, 5, 6, 7]⟩
    (by decide)
    (by
      simp only [List.cons_append, List.nil_append, List.chain'_cons,
        List.chain'_singleton, and_true]
      exact ⟨by decide, by decide, by decide⟩)
    (by decide) (by decide)

/-! ### Claim C2 — cap enforcement stops the stream immediately -/

/-- C2: once a poll's snapshot supplies the `m`-th row (`0 < m`), the
streamer yields exactly `m` rows and returns at that very poll — the state
of that poll is never consulted (the trace needs no terminal state) and no
request after that poll's pair is issued (the iteration count is the
position of that poll, regardless of what `rest` holds). -/
theorem splank_C2_cap_stop {α : Type} (m : Nat) (front : List (Poll α))
    (caphit : Poll α) (rest : List (Poll α))
    (hm : 0 < m)
    (hstates : ∀ p ∈ front, p.state ≠ "DONE" ∧ p.state ≠ "FAILED")
    (hchain : List.Chain' (fun a b : Poll α => a.snapshot <+: b.snapshot)
      (front ++ [caphit]))
    (hlt : ∀ p ∈ front, p.snapshot.length < m)
    (hcap : m ≤ caphit.snapshot.length) :
    streamResults m (front ++ caphit :: rest)
      = (StreamOutcome.finished (caphit.snapshot.take m), front.length + 1)
  ∧ (caphit.snapshot.take m).length = m := by
  have hpref := chain_prefix_to_last front caphit hchain
  have hT : seenAfter 0 front < m := seenAfter_lt 0 m front hm hlt
  constructor
  · rw [streamResults, streamGo_front m front caphit rest 0 hstates hpref hlt,
      streamGo_last_cap m (seenAfter 0 front) caphit rest hcap hT]
    simp only [List.drop_zero, Prod.mk.injEq]
    constructor
    · rw [prependRows]
      have htt : (caphit.snapshot.take m).take (seenAfter 0 front)
          = caphit.snapshot.take (seenAfter 0 front) := by
        rw [List.take_take]
        have : min (seenAfter 0 front) m = seenAfter 0 front := by omega
        rw [this]
      rw [← htt, List.take_append_drop]
    · omega
  · rw [List.length_take]
    omega

/-- C2 witness: with `maxResults = 5` against a trace supplying 3 then 10
rows, the streamer yields exactly 5 rows and stops at the second poll,
without consulting the trailing `DONE` poll. -/
theorem splank_C2_witness :
    streamResults 5
        ([⟨"RUNNING", ([1, 2, 3] : List Nat)⟩]
          ++ (⟨"RUNNING", [1, 2, 3, 4, 5, 6, 7, 8, 9, 10]⟩ : Poll Nat)
            :: [⟨"DONE", [1, 2, 3, 4, 5, 6, 7, 8, 9, 10]⟩])
      = (StreamOutcome.finished (([1, 2, 3, 4, 5, 6, 7, 8, 9, 10] : List Nat).take 5),
        1 + 1)
  ∧ (([1, 2, 3, 4, 5, 6, 7, 8, 9, 10] : List Nat).take 5).length = 5 :=
  splank_C2_cap_stop 5 [⟨"RUNNING", ([1, 2, 3] : List Nat)⟩]
    ⟨"RUNNING", [1, 2, 3, 4, 5, 6, 7, 8, 9, 10]⟩
    [⟨"DONE", [1, 2, 3, 4, 5, 6, 7, 8, 9, 10]⟩]
    (by decide) (by decide)
    (by
      simp only [List.cons_append, List.nil_append, List.chain'_cons,
        List.chain'_singleton, and_true]
      exact by decide)
    (by decide) (by decide)

/-! ### Claim C3 — failed jobs surface an error -/

/-- C3 counterexample: the error raised on a `FAILED` job is the constant
`RuntimeError("Search job failed")`; it does not contain the job's sid
(here `"sid-12345"`) — the Python `raise RuntimeError("Search job failed")`
never interpolates the sid. -/
theorem splank_C3_counterexample :
    streamResults 10 [(⟨"FAILED", []⟩ : Poll Nat)]
      = (.failed [] (.runtimeError "Search job failed"), 1)
  ∧ awaitCompletion ["FAILED"] = .failed (.runtimeError "Search job failed")
  ∧ containsSub "Search job failed".data "sid-12345".data = false :=
  ⟨by decide, by decide, by decide⟩

/-- C3 (amended): a job observed in the `FAILED` dispatch state makes both
the batch completion wait and the streaming path (when the row cap has not
been reached by that poll) raise `RuntimeError("Search job failed")` — an
error that does not carry the sid — and neither path returns an empty result
sequence; rows already yielded before the failure stay yielded. -/
theorem splank_C3_failed_propagation {α : Type} (sfront srest : List String)
    (resp : ResultsResp α) (pfront prest : List (Poll α)) (fpoll : Poll α)
    (m : Nat)
    (h1 : ∀ s ∈ sfront, s ≠ "DONE" ∧ s ≠ "FAILED")
    (h2 : ∀ p ∈ pfront, p.state ≠ "DONE" ∧ p.state ≠ "FAILED")
    (h3 : List.Chain' (fun a b : Poll α => a.snapshot <+: b.snapshot)
      (pfront ++ [fpoll]))
    (h4 : fpoll.state = "FAILED")
    (h5 : fpoll.snapshot.length < m) :
    searchBatch (sfront ++ "FAILED" :: srest) resp
      = .failed (.runtimeError "Search job failed")
  ∧ streamResults m (pfront ++ fpoll :: prest)
      = (.failed fpoll.snapshot (.runtimeError "Search job failed"),
        pfront.length + 1) := by
  constructor
  · unfold searchBatch
    rw [awaitCompletion_failed sfront srest h1]
  · have hpref := chain_prefix_to_last pfront fpoll h3
    have hlt : ∀ p ∈ pfront, p.snapshot.length < m :=
      fun p hp => Nat.lt_of_le_of_lt (hpref p hp).length_le h5
    have hTle : seenAfter 0 pfront ≤ fpoll.snapshot.length :=
      seenAfter_le 0 _ pfront (Nat.zero_le _)
        (fun p hp => (hpref p hp).length_le)
    rw [streamResults, streamGo_front m pfront fpoll prest 0 h2 hpref hlt,
      streamGo_last_failed m (seenAfter 0 pfront) fpoll prest h4 hTle h5]
    simp only [List.drop_zero, Prod.mk.injEq]
    constructor
    · rw [prependRows, List.take_append_drop]
    · omega

/-- C3 witness: after one running poll with 2 rows, a `FAILED` poll holding
3 rows makes the streamer yield the 3 rows and raise, while the batch wait
raises directly. -/
theorem splank_C3_witness :
    searchBatch (["RUNNING"] ++ "FAILED" :: []) (ResultsResp.mk (some [0]))
      = .failed (.runtimeError "Search job failed")
  ∧ streamResults 10
        ([⟨"RUNNING", ([1, 2] : List Nat)⟩] ++ (⟨"FAILED", [1, 2, 3]⟩ : Poll Nat) :: [])
      = (.failed [1, 2, 3] (.runtimeError "Search job failed"), 1 + 1) :=
  splank_C3_failed_propagation ["RUNNING"] [] (ResultsResp.mk (some [0]))
    [⟨"RUNNING", ([1, 2] : List Nat)⟩] [] ⟨"FAILED", [1, 2, 3]⟩ 10
    (by decide) (by decide)
    (by
      simp only [List.cons_append, List.nil_append, List.chain'_cons,
        List.chain'_singleton, and_true]
      exact by decide)
    (by decide) (by decide)

/-! ### Claim C7 — only the two terminal states stop the loops -/

/-- Whether the streaming loop is still polling (neither returned nor
raised) when its trace ran out. -/
def isPendingOutcome {α : Type} : StreamOutcome α → Bool
  | .pending _ => true
  | _ => false

theorem awaitCompletion_pending (states : List String)
    (h : ∀ s ∈ states, s ≠ "DONE" ∧ s ≠ "FAILED") :
    awaitCompletion states = .pending := by
  induction states with
  | nil => rfl
  | cons s states ih =>
      have hs := h s (List.mem_cons_self _ _)
      show (if s = "DONE" then WaitOutcome.done
        else if s = "FAILED" then .failed (.runtimeError "Search job failed")
        else awaitCompletion states) = .pending
      rw [if_neg hs.1, if_neg hs.2]
      exact ih fun x hx => h x (List.mem_cons_of_mem _ hx)

theorem streamGo_pending {α : Type} (m : Nat) (polls : List (Poll α)) (seen : Nat)
    (hstates : ∀ p ∈ polls, p.state ≠ "DONE" ∧ p.state ≠ "FAILED")
    (hlt : ∀ p ∈ polls, p.snapshot.length < m) :
    ∃ rows, streamGo m seen polls = (.pending rows, polls.length) := by
  induction polls generalizing seen with
  | nil => exact ⟨[], rfl⟩
  | cons p polls ih =>
      have hsp := hstates p (List.mem_cons_self _ _)
      have hlp := hlt p (List.mem_cons_self _ _)
      have hstates' : ∀ x ∈ polls, x.state ≠ "DONE" ∧ x.state ≠ "FAILED" :=
        fun x hx => hstates x (List.mem_cons_of_mem _ hx)
      have hlt' : ∀ x ∈ polls, x.snapshot.length < m :=
        fun x hx => hlt x (List.mem_cons_of_mem _ hx)
      by_cases hps : p.snapshot.length ≤ seen
      · obtain ⟨rows, hr⟩ := ih seen hstates' hlt'
        refine ⟨rows, ?_⟩
        rw [streamGo_step_skip m seen p _ hps hsp.1 hsp.2, hr]
        simp [List.length_cons]
      · push_neg at hps
        obtain ⟨rows, hr⟩ := ih p.snapshot.length hstates' hlt'
        refine ⟨p.snapshot.drop seen ++ rows, ?_⟩
        rw [streamGo_step_yield m seen p _ hps hlp hsp.1 hsp.2, hr]
        simp [prependRows, List.length_cons]

/-- C7: any dispatch state other than `DONE` and `FAILED` — including values
unknown in advance — is treated as still running by both loops: the batch
wait neither returns nor raises, and the streamer (below its cap) neither
returns nor raises, across every poll of the trace, consuming one status
request per poll. -/
theorem splank_C7_nonterminal_keeps_polling {α : Type} (states : List String)
    (polls : List (Poll α)) (m : Nat)
    (h1 : ∀ s ∈ states, s ≠ "DONE" ∧ s ≠ "FAILED")
    (h2 : ∀ p ∈ polls, p.state ≠ "DONE" ∧ p.state ≠ "FAILED")
    (h3 : ∀ p ∈ polls, p.snapshot.length < m) :
    awaitCompletion states = .pending
  ∧ isPendingOutcome (streamResults m polls).1 = true
  ∧ (streamResults m polls).2 = polls.length := by
  obtain ⟨rows, hr⟩ := streamGo_pending m polls 0 h2 h3
  refine ⟨awaitCompletion_pending states h1, ?_, ?_⟩
  · rw [streamResults, hr]
    rfl
  · rw [streamResults, hr]

/-- C7 witness: queued/parsing/finalizing states — none of them known
terminal values — keep both loops polling to the end of the trace. -/
theorem splank_C7_witness :
    awaitCompletion ["QUEUED", "PARSING"] = .pending
  ∧ isPendingOutcome (streamResults 5
      [⟨"RUNNING", ([1] : List Nat)⟩, ⟨"FINALIZING", [1, 2]⟩]).1 = true
  ∧ (streamResults 5 [⟨"RUNNING", ([1] : List Nat)⟩, ⟨"FINALIZING", [1, 2]⟩]).2 = 2 :=
  splank_C7_nonterminal_keeps_polling ["QUEUED", "PARSING"]
    [⟨"RUNNING", ([1] : List Nat)⟩, ⟨"FINALIZING", [1, 2]⟩] 5
    (by decide) (by decide) (by decide)

/-! ### Claim C10 — batch fetch -/

/-- C10: once the wait loop observes `DONE`, the batch path yields exactly
the rows of the response's `results` list (empty when the key is absent),
with no client-side truncation — the row cap appears only as the `count`
request parameter. -/
theorem splank_C10_batch_fetch {α : Type} (front rest : List String) (m : Nat)
    (rows : List α)
    (h : ∀ s ∈ front, s ≠ "DONE" ∧ s ≠ "FAILED") :
    searchBatch (front ++ "DONE" :: rest) (ResultsResp.mk (some rows)) = .ok rows
  ∧ searchBatch (front ++ "DONE" :: rest) (ResultsResp.mk (none : Option (List α)))
      = .ok []
  ∧ ("count", Nat.repr m) ∈ resultsParams m := by
  refine ⟨?_, ?_, ?_⟩
  · unfold searchBatch
    rw [awaitCompletion_done front rest h]
    rfl
  · unfold searchBatch
    rw [awaitCompletion_done front rest h]
    rfl
  · simp [resultsParams]

/-- C10 witness: a `results` list of 3 rows is returned in full even with
`maxResults = 2` — the cap is not enforced client-side in batch mode. -/
theorem splank_C10_witness :
    searchBatch (["RUNNING"] ++ "DONE" :: []) (ResultsResp.mk (some [10, 20, 30]))
      = .ok [10, 20, 30]
  ∧ searchBatch (["RUNNING"] ++ "DONE" :: []) (ResultsResp.mk (none : Option (List Nat)))
      = .ok []
  ∧ ("count", Nat.repr 2) ∈ resultsParams 2 :=
  splank_C10_batch_fetch ["RUNNING"] [] 2 [10, 20, 30] (by decide)

/-! ### Row-dictionary helper lemmas -/

/-- Unfolding of `List.lookup` on a cons cell, with a propositional test. -/
theorem lookup_cons (k a b : String) (l : Row) :
    List.lookup k ((a, b) :: l) = if k = a then some b else List.lookup k l := by
  by_cases h : k = a
  · simp [List.lookup, beq_iff_eq.mpr h, h]
  · simp [List.lookup, beq_eq_false_iff_ne.mpr h, h]

theorem keys_ne_of_lookup_none {k : String} {l : Row}
    (h : List.lookup k l = none) : ∀ kv ∈ l, kv.1 ≠ k := by
  induction l with
  | nil => intro kv hkv; exact absurd hkv (List.not_mem_nil kv)
  | cons kv l ih =>
      obtain ⟨a, b⟩ := kv
      rw [lookup_cons] at h
      by_cases hba : k = a
      · rw [if_pos hba] at h
        exact absurd h (by simp)
      · rw [if_neg hba] at h
        intro x hx
        rcases List.mem_cons.mp hx with rfl | hx'
        · exact fun hc => hba hc.symm
        · exact ih h x hx'

theorem lookup_filter_eq (k : String) (pred : String × String → Bool) (l : Row)
    (hk : ∀ v, pred (k, v) = true) :
    List.lookup k (l.filter pred) = List.lookup k l := by
  induction l with
  | nil => rfl
  | cons kv l ih =>
      obtain ⟨a, b⟩ := kv
      rw [List.filter_cons]
      by_cases he : k = a
      · subst he
        rw [hk b]
        simp only [if_true]
        rw [lookup_cons, lookup_cons, if_pos rfl, if_pos rfl]
      · cases hp : pred (a, b) with
        | true =>
            simp only [if_true]
            rw [lookup_cons, lookup_cons, if_neg he, if_neg he]
            exact ih
        | false =>
            simp only [Bool.false_eq_true, if_false]
            rw [lookup_cons, if_neg he]
            exact ih

theorem lookup_filter_none (k : String) (pred : String × String → Bool)
    {l : Row} (h : List.lookup k l = none) :
    List.lookup k (l.filter pred) = none := by
  induction l with
  | nil => rfl
  | cons kv l ih =>
      obtain ⟨a, b⟩ := kv
      rw [lookup_cons] at h
      by_cases hba : k = a
      · rw [if_pos hba] at h
        exact absurd h (by simp)
      · rw [if_neg hba] at h
        rw [List.filter_cons]
        cases hp : pred (a, b) with
        | true =>
            simp only [if_true]
            rw [lookup_cons, if_neg hba]
            exact ih h
        | false =>
            simp only [Bool.false_eq_true, if_false]
            exact ih h

theorem lookup_truncate_fields (k : String) (row : Row) (width : Nat)
    (hw : width ≠ 0) :
    List.lookup k (truncate_fields row width)
      = (List.lookup k row).map
          (fun v => if width < v.length then pyTake v width ++ "..." else v) := by
  rw [truncate_fields, if_neg hw]
  induction row with
  | nil => rfl
  | cons kv l ih =>
      obtain ⟨a, b⟩ := kv
      rw [List.map_cons]
      by_cases hba : k = a
      · show List.lookup k ((a, _) :: _) = _
        rw [lookup_cons, lookup_cons, if_pos hba, if_pos hba]
        rfl
      · show List.lookup k ((a, _) :: _) = _
        rw [lookup_cons, lookup_cons, if_neg hba, if_neg hba]
        exact ih

theorem lookup_map_overwrite (k k' v : String) (d : Row) (h : k' ≠ k) :
    List.lookup k (d.map fun kv => if kv.1 = k' then (k', v) else kv)
      = List.lookup k d := by
  induction d with
  | nil => rfl
  | cons kv d ih =>
      obtain ⟨a, b⟩ := kv
      simp only [List.map_cons]
      by_cases ha : a = k'
      · rw [if_pos ha, lookup_cons, lookup_cons]
        have h1 : k ≠ k' := fun hc => h hc.symm
        have h2 : k ≠ a := by rw [ha]; exact h1
        rw [if_neg h1, if_neg h2]
        exact ih
      · rw [if_neg ha, lookup_cons, lookup_cons]
        by_cases hba : k = a
        · rw [if_pos hba, if_pos hba]
        · rw [if_neg hba, if_neg hba]
          exact ih

theorem lookup_append_single_ne (k k' v : String) (d : Row) (h : k' ≠ k) :
    List.lookup k (d ++ [(k', v)]) = List.lookup k d := by
  induction d with
  | nil =>
      rw [List.nil_append, lookup_cons, if_neg (fun hc => h hc.symm)]
  | cons kv d ih =>
      obtain ⟨a, b⟩ := kv
      rw [List.cons_append, lookup_cons, lookup_cons]
      by_cases hba : k = a
      · rw [if_pos hba, if_pos hba]
      · rw [if_neg hba, if_neg hba]
        exact ih

theorem lookup_dictSet_ne (k k' v : String) (d : Row) (h : k' ≠ k) :
    List.lookup k (dictSet d k' v) = List.lookup k d := by
  rw [dictSet]
  by_cases ha : d.any fun kv => kv.1 = k'
  · rw [if_pos ha]
    exact lookup_map_overwrite k k' v d h
  · rw [if_neg ha]
    exact lookup_append_single_ne k k' v d h

theorem lookup_dictMerge_ne (k : String) (d : Row) (upd : Row)
    (h : ∀ kv ∈ upd, kv.1 ≠ k) :
    List.lookup k (dictMerge d upd) = List.lookup k d := by
  induction upd generalizing d with
  | nil => rfl
  | cons kv upd ih =>
      obtain ⟨k', v⟩ := kv
      rw [dictMerge]
      rw [ih (dictSet d k' v) (fun x hx => h x (List.mem_cons_of_mem _ hx))]
      exact lookup_dictSet_ne k k' v d (h (k', v) (List.mem_cons_self _ _))

/-- Unfolding of `transform` when a profile is supplied. -/
theorem transform_some (n : Nat) (internal : Bool) (width : Nat) (p : String)
    (row : Row) :
    transform n internal width (some p) row
      = (if width = 0 then
          (if internal then (if 1 < n then dictMerge [("_profile", p)] row else row)
            else filter_internal_fields
              (if 1 < n then dictMerge [("_profile", p)] row else row))
        else
          truncate_fields
            (if internal then (if 1 < n then dictMerge [("_profile", p)] row else row)
              else filter_internal_fields
                (if 1 < n then dictMerge [("_profile", p)] row else row)) width) := rfl

/-- Unfolding of `transform` when no profile is supplied. -/
theorem transform_none (n : Nat) (internal : Bool) (width : Nat) (row : Row) :
    transform n internal width none row
      = (if width = 0 then (if internal then row else filter_internal_fields row)
        else truncate_fields
          (if internal then row else filter_internal_fields row) width) := rfl

/-- In the multi-profile transform, the `_profile` tag is present with the
origin profile's name as value, provided the service row did not itself
carry a `_profile` field and the profile name survives truncation. -/
theorem lookup_profile_transform (n : Nat) (internal : Bool) (width : Nat)
    (p : String) (row : Row) (hn : 1 < n)
    (hclean : List.lookup "_profile" row = none)
    (hw : width = 0 ∨ p.length ≤ width) :
    List.lookup "_profile" (transform n internal width (some p) row) = some p := by
  have hrow1 : List.lookup "_profile" (dictMerge [("_profile", p)] row) = some p := by
    rw [lookup_dictMerge_ne "_profile" _ row (keys_ne_of_lookup_none hclean)]
    rw [lookup_cons, if_pos rfl]
  have hrow2 : List.lookup "_profile"
      (if internal then dictMerge [("_profile", p)] row
        else filter_internal_fields (dictMerge [("_profile", p)] row)) = some p := by
    by_cases hi : internal
    · rw [if_pos hi]; exact hrow1
    · rw [if_neg hi, filter_internal_fields,
        lookup_filter_eq "_profile" _ _ (fun v => rfl)]
      exact hrow1
  rw [transform_some, if_pos hn]
  by_cases hw0 : width = 0
  · rw [if_pos hw0]
    exact hrow2
  · rw [if_neg hw0, lookup_truncate_fields _ _ _ hw0, hrow2]
    have hpl : ¬(width < p.length) := by
      rcases hw with h0 | hle
      · exact absurd h0 hw0
      · omega
    simp [hpl]

/-- In the single-profile branch the transform is applied with no profile:
no `_profile` key is ever added. -/
theorem lookup_none_transform (n : Nat) (internal : Bool) (width : Nat)
    (row : Row) (hclean : List.lookup "_profile" row = none) :
    List.lookup "_profile" (transform n internal width none row) = none := by
  have hrow2 : List.lookup "_profile"
      (if internal then row else filter_internal_fields row) = none := by
    by_cases hi : internal
    · rw [if_pos hi]; exact hclean
    · rw [if_neg hi, filter_internal_fields]
      exact lookup_filter_none "_profile" _ hclean
  rw [transform_none]
  by_cases hw0 : width = 0
  · rw [if_pos hw0]
    exact hrow2
  · rw [if_neg hw0, lookup_truncate_fields _ _ _ hw0, hrow2]
    rfl

/-- When every profile's search succeeds, the merge loop returns the
transformed rows of all profiles, concatenated in completion order. -/
theorem collectCompleted_ok (tf : String → Row → Row)
    (completed : List (String × List Row)) :
    collectCompleted tf (completed.map fun pr => (pr.1, .ok pr.2))
      = .ok ((completed.map fun pr => pr.2.map (tf pr.1)).flatten) := by
  induction completed with
  | nil => rfl
  | cons pr completed ih =>
      obtain ⟨p, rows⟩ := pr
      rw [List.map_cons, collectCompleted, ih, List.map_cons, List.flatten_cons]

theorem mergeAll_length (internal : Bool) (width n : Nat)
    (completed : List (String × List Row)) :
    (mergeAll internal width n completed).length
      = (completed.map fun pr => pr.2.length).sum := by
  unfold mergeAll
  rw [List.length_flatten, List.map_map]
  have he : (List.length ∘ fun pr : String × List Row =>
      List.map (transform n internal width (some pr.1)) pr.2)
      = fun pr : String × List Row => pr.2.length := by
    funext pr
    simp [Function.comp, List.length_map]
  rw [he]

/-! ### Claim C8 — multi-profile merge completeness and tagging -/

/-- C8: with every profile succeeding, the multi-profile merge returns
exactly the concatenation of the per-profile transformed rows — its length
is the sum of the per-profile row counts — and, when more than one profile
was requested, every merged row carries the `_profile` tag naming its origin
profile (rows not already carrying a `_profile` field, profile names
surviving truncation); with a single profile the transform runs without a
profile and adds no `_profile` key. -/
theorem splank_C8_merge (internal : Bool) (width : Nat)
    (completed : List (String × List Row))
    (hclean : ∀ pr ∈ completed, ∀ row ∈ pr.2, List.lookup "_profile" row = none)
    (hw : ∀ pr ∈ completed, width = 0 ∨ pr.1.length ≤ width)
    (hmulti : 1 < completed.length) :
    cmdSearchMulti internal width completed.length
        (completed.map fun pr => (pr.1, .ok pr.2))
      = .ok (mergeAll internal width completed.length completed)
  ∧ (mergeAll internal width completed.length completed).length
      = (completed.map fun pr => pr.2.length).sum
  ∧ (∀ pr ∈ completed, ∀ row ∈ pr.2,
      List.lookup "_profile"
        (transform completed.length internal width (some pr.1) row) = some pr.1)
  ∧ (∀ row : Row, List.lookup "_profile" row = none →
      List.lookup "_profile" (transform 1 internal width none row) = none) := by
  refine ⟨?_, mergeAll_length internal width completed.length completed, ?_, ?_⟩
  · rw [cmdSearchMulti,
      collectCompleted_ok (fun p row => transform completed.length internal width (some p) row)
        completed]
    rfl
  · intro pr hpr row hrow
    exact lookup_profile_transform completed.length internal width pr.1 row hmulti
      (hclean pr hpr row hrow) (hw pr hpr)
  · intro row hrow
    exact lookup_none_transform 1 internal width row hrow

/-- C8 witness: profiles a, b, c returning 2, 0 and 3 rows merge to exactly
5 rows, each tagged with its origin profile; the single-profile transform
adds no tag. -/
theorem splank_C8_witness :
    cmdSearchMulti false 500 3
        (([("a", [[("msg", "m1")], [("msg", "m2")]]),
           ("b", ([] : List Row)),
           ("c", [[("msg", "m3")], [("msg", "m4")], [("msg", "m5")]])]
          : List (String × List Row)).map fun pr => (pr.1, .ok pr.2))
      = .ok (mergeAll false 500 3
          [("a", [[("msg", "m1")], [("msg", "m2")]]),
           ("b", ([] : List Row)),
           ("c", [[("msg", "m3")], [("msg", "m4")], [("msg", "m5")]])])
  ∧ (mergeAll false 500 3
        [("a", [[("msg", "m1")], [("msg", "m2")]]),
         ("b", ([] : List Row)),
         ("c", [[("msg", "m3")], [("msg", "m4")], [("msg", "m5")]])]).length
      = (([("a", [[("msg", "m1")], [("msg", "m2")]]),
          ("b", ([] : List Row)),
          ("c", [[("msg", "m3")], [("msg", "m4")], [("msg", "m5")]])]
          : List (String × List Row)).map fun pr => pr.2.length).sum
  ∧ (∀ pr ∈ ([("a", [[("msg", "m1")], [("msg", "m2")]]),
          ("b", ([] : List Row)),
          ("c", [[("msg", "m3")], [("msg", "m4")], [("msg", "m5")]])]
          : List (String × List Row)), ∀ row ∈ pr.2,
      List.lookup "_profile" (transform 3 false 500 (some pr.1) row) = some pr.1)
  ∧ (∀ row : Row, List.lookup "_profile" row = none →
      List.lookup "_profile" (transform 1 false 500 none row) = none) :=
  splank_C8_merge false 500
    [("a", [[("msg", "m1")], [("msg", "m2")]]),
     ("b", ([] : List Row)),
     ("c", [[("msg", "m3")], [("msg", "m4")], [("msg", "m5")]])]
    (by decide) (by decide) (by decide)

end Splank
